import Mathlib

/-!
Shallow embedding of `client/consensus/common/src/parachain_consensus.rs`
(the parachain-follower consensus driver) and proofs about its behaviour.

Modelling conventions:
* Block hashes, candidate receipts and session indices are `Nat`.
* SCALE-encoded header bytes are `List Nat`; `decodeHeader` is the (fallible)
  decoder: exactly the two observed header fields are encoded, anything else
  fails to decode, mirroring that `Decode::decode` may fail on arbitrary bytes.
* The parachain client (substrate, external to this repository) is a record of
  the operations the driver consumes: `usage_info().chain.best_hash` /
  `finalized_hash` snapshots, `block_status`, and the success/failure behaviour
  of `finalize_block` (a successful `finalize_block(h)` makes `h` the client's
  finalized hash; a failed one leaves it unchanged).
* Effects (status queries, `import_block` calls, `announce` invocations,
  `finalize_block` calls, overseer messages, recovery insertions) are collected
  in the handlers' return values instead of being performed; logging is not
  modelled.
* `HashMap` is an association list with unique keys and insert-replace
  semantics; `FuturesUnordered` holding the armed recovery-delay timers is the
  list of hashes with an armed timer (the random delay itself is real-time
  behaviour; the claims only depend on whether a timer is armed and on the
  timer-expiry events, which are modelled as explicit events).
-/

/-- A parachain header as observed by the driver: the parent-hash/number chain
and the identity hash derived from it. -/
structure Header where
  parent_hash : Nat
  number : Nat
  deriving DecidableEq, Repr

/-- The identity hash of a header (an injective digest of its fields). -/
def Header.hash (h : Header) : Nat := Nat.pair h.parent_hash h.number

/-- Decoding of opaque header bytes, `Block::Header::decode`: succeeds exactly
on a two-field encoding, fails on anything else. -/
def decodeHeader : List Nat → Option Header
  | [parent_hash, number] => some ⟨parent_hash, number⟩
  | _ => none

/-- Block status as reported by the parachain client, `sp_consensus::BlockStatus`. -/
inductive BlockStatus where
  | Queued
  | InChainWithState
  | InChainPruned
  | KnownBad
  | Unknown
  deriving DecidableEq, Repr

/-- Origin of an imported block, `sp_consensus::BlockOrigin`. -/
inductive BlockOrigin where
  | Genesis
  | NetworkInitialSync
  | NetworkBroadcast
  | ConsensusBroadcast
  | Own
  | File
  deriving DecidableEq, Repr

/-- Fork-choice strategy carried by `BlockImportParams`. -/
inductive ForkChoiceStrategy where
  | LongestChain
  | Custom (is_best : Bool)
  deriving DecidableEq, Repr

/-- The parameters of an `import_block` call made by the driver. -/
structure ImportBlockParams where
  origin : BlockOrigin
  fork_choice : Option ForkChoiceStrategy
  import_existing : Bool
  header : Header
  deriving DecidableEq, Repr

/-- The parachain client as consumed by the driver (external collaborator):
snapshot reads of the best/finalized hash, `block_status` (which may fail with
a client error, modelled as `Except Unit`), and whether `finalize_block` on a
given hash succeeds. -/
structure Parachain where
  bestHash : Nat
  finalizedHash : Nat
  blockStatus : Nat → Except Unit BlockStatus
  finalizeOk : Nat → Bool

/-- A local block-import notification, `BlockImportNotification`. -/
structure BlockImportNotification where
  hash : Nat
  origin : BlockOrigin
  header : Header
  is_new_best : Bool
  deriving DecidableEq, Repr

/-! ## The candidate-recovery component (`CandidateRecovery`) -/

/-- One entry of the pending map, struct `PendingCandidate`. -/
structure PendingCandidate where
  receipt : Nat
  session_index : Nat
  block_number : Nat
  deriving DecidableEq, Repr

/-- Association-list lookup, `HashMap::get`. -/
def lookupPC : List (Nat × PendingCandidate) → Nat → Option PendingCandidate
  | [], _ => none
  | (k, v) :: t, h => if k = h then some v else lookupPC t h

/-- Association-list insert with replacement, `HashMap::insert`. -/
def insertPC : List (Nat × PendingCandidate) → Nat → PendingCandidate →
    List (Nat × PendingCandidate)
  | [], h, v => [(h, v)]
  | (k, w) :: t, h, v => if k = h then (h, v) :: t else (k, w) :: insertPC t h v

/-- Association-list removal, `HashMap::remove`. -/
def removePC (m : List (Nat × PendingCandidate)) (h : Nat) :
    List (Nat × PendingCandidate) :=
  m.filter fun kv => kv.1 != h

/-- State of the `CandidateRecovery` struct: the pending map, the armed
recovery-delay timers (`next_candidate_to_recover`), and the in-flight set
(`recovering_candidates`). -/
structure CandidateRecovery where
  pending_candidates : List (Nat × PendingCandidate)
  next_candidate_to_recover : List Nat
  recovering_candidates : List Nat
  deriving DecidableEq, Repr

/-- An `AvailabilityRecoveryMessage::RecoverAvailableData` message sent to the
overseer: receipt, session index, optional backing-group hint; the fresh
oneshot reply channel is left implicit. -/
structure RecoverAvailableDataMsg where
  receipt : Nat
  session_index : Nat
  backing_group : Option Nat
  deriving DecidableEq, Repr

/-- `CandidateRecovery::insert_pending_candidate`: insert (replacing any
previous entry); if an entry was already present, return without arming a new
timer, otherwise arm one randomly-delayed timer carrying the hash. -/
def insert_pending_candidate (self : CandidateRecovery) (hash : Nat)
    (block_number : Nat) (receipt : Nat) (session_index : Nat) :
    CandidateRecovery :=
  let previous := lookupPC self.pending_candidates hash
  let pending := insertPC self.pending_candidates hash
    ⟨receipt, session_index, block_number⟩
  if previous.isSome then
    { self with pending_candidates := pending }
  else
    { self with
        pending_candidates := pending
        next_candidate_to_recover := self.next_candidate_to_recover ++ [hash] }

/-- `CandidateRecovery::block_imported`: drop the hash from the pending map. -/
def block_imported (self : CandidateRecovery) (hash : Nat) : CandidateRecovery :=
  { self with pending_candidates := removePC self.pending_candidates hash }

/-- `CandidateRecovery::block_finalized`: retain only pending entries whose
block number is above the finalized number. -/
def block_finalized (self : CandidateRecovery) (block_number : Nat) :
    CandidateRecovery :=
  { self with
      pending_candidates := self.pending_candidates.filter fun kv =>
        decide (block_number < kv.2.block_number) }

/-- One iteration of the `CandidateRecovery::wait_for_recovery` loop upon a
recovery-delay timer expiry carrying `recover`: remove the hash from the
pending map (dropping the event silently when absent) and send one
`RecoverAvailableData` message with the entry's receipt and session index and
backing-group hint `None`. Note that the loop body never touches
`recovering_candidates`. -/
def wait_for_recovery_step (self : CandidateRecovery) (recover : Nat) :
    CandidateRecovery × List RecoverAvailableDataMsg :=
  match lookupPC self.pending_candidates recover with
  | none => (self, [])
  | some pending_candidate =>
    ({ self with pending_candidates := removePC self.pending_candidates recover },
      [⟨pending_candidate.receipt, pending_candidate.session_index, none⟩])

/-! ## The finalized-head follower (`follow_finalized_head`) -/

/-- The `follow_finalized_head` loop, run over a finite prefix of the
finalized-heads stream. Per item: decode (on failure log and continue); compute
the hash; skip when it equals the client's current finalized hash; otherwise
call `finalize_block(hash)` — on success the client's finalized hash becomes
that hash, any error is logged (UnknownBlock at debug, others at warn) and the
loop continues. Returns the final client state and the list of hashes passed to
`finalize_block`, in call order. -/
def follow_finalized_head (parachain : Parachain) :
    List (List Nat) → Parachain × List Nat
  | [] => (parachain, [])
  | finalized_head :: rest =>
    match decodeHeader finalized_head with
    | none => follow_finalized_head parachain rest
    | some header =>
      if parachain.finalizedHash ≠ header.hash then
        let parachain' :=
          if parachain.finalizeOk header.hash then
            { parachain with finalizedHash := header.hash }
          else parachain
        let r := follow_finalized_head parachain' rest
        (r.1, header.hash :: r.2)
      else
        follow_finalized_head parachain rest

/-- One step of `follow_finalized_head` on a single stream item (the loop body
alone), for stating per-item properties: returns the client state afterwards
and the `finalize_block` calls the item caused. -/
def finalized_head_step (parachain : Parachain) (finalized_head : List Nat) :
    Parachain × List Nat :=
  match decodeHeader finalized_head with
  | none => (parachain, [])
  | some header =>
    if parachain.finalizedHash ≠ header.hash then
      if parachain.finalizeOk header.hash then
        ({ parachain with finalizedHash := header.hash }, [header.hash])
      else (parachain, [header.hash])
    else (parachain, [])

/-! ## The best-head follower (`follow_new_best` handlers) -/

/-- Effects of `handle_new_best_parachain_head`: the deferred
(`unset_best_header`) slot afterwards, the `block_status` queries made, and the
`import_block` calls issued. -/
structure NewBestOut where
  unset_best_header : Option Header
  statusQueries : List Nat
  imports : List ImportBlockParams
  deriving DecidableEq, Repr

/-- `import_block_as_new_best`: builds `BlockImportParams` with origin
`ConsensusBroadcast`, fork choice `Custom(true)` and `import_existing = true`
and submits it; an `Err` from `import_block` is logged and swallowed, so the
call's outcome influences nothing else. -/
def import_block_as_new_best (header : Header) : ImportBlockParams :=
  { origin := .ConsensusBroadcast
    fork_choice := some (.Custom true)
    import_existing := true
    header := header }

/-- `handle_new_best_parachain_head`: decode the head bytes (on failure log and
return); skip when the hash is already the best hash; otherwise act on the
local block status: `InChainWithState` clears the deferred header and imports
as new best, `InChainPruned` only logs an error, `Unknown` stores the header in
the deferred slot, a status error or any other status only logs. -/
def handle_new_best_parachain_head (parachain : Parachain) (head : List Nat)
    (unset_best_header : Option Header) : NewBestOut :=
  match decodeHeader head with
  | none => ⟨unset_best_header, [], []⟩
  | some parachain_head =>
    if parachain.bestHash = parachain_head.hash then
      ⟨unset_best_header, [], []⟩
    else
      match parachain.blockStatus parachain_head.hash with
      | .ok .InChainWithState =>
        ⟨none, [parachain_head.hash], [import_block_as_new_best parachain_head]⟩
      | .ok .InChainPruned => ⟨unset_best_header, [parachain_head.hash], []⟩
      | .ok .Unknown => ⟨some parachain_head, [parachain_head.hash], []⟩
      | .error _ => ⟨unset_best_header, [parachain_head.hash], []⟩
      | .ok _ => ⟨unset_best_header, [parachain_head.hash], []⟩

/-- Effects of `handle_new_block_imported`: the deferred slot afterwards, the
`announce_block` invocations (hash and associated data), the `block_status`
queries, and the `import_block` calls. -/
structure ImportedOut where
  unset_best_header : Option Header
  announces : List (Nat × Option (List Nat))
  statusQueries : List Nat
  imports : List ImportBlockParams
  deriving DecidableEq, Repr

/-- `handle_new_block_imported`: announce the block when its origin is not
`Own`; then reconcile with the deferred best header — return early when the
notification is already new best or no header is deferred; compare numbers
(below: wait further; equal with a different hash: different fork, wait;
equal with the same hash, or above: re-check the status of the deferred hash
and promote it, clearing the slot, exactly when it is `InChainWithState`). -/
def handle_new_block_imported (parachain : Parachain)
    (notification : BlockImportNotification)
    (unset_best_header_opt : Option Header) : ImportedOut :=
  let announces : List (Nat × Option (List Nat)) :=
    if notification.origin ≠ BlockOrigin.Own then [(notification.hash, none)]
    else []
  match notification.is_new_best, unset_best_header_opt with
  | true, u => ⟨u, announces, [], []⟩
  | false, none => ⟨none, announces, [], []⟩
  | false, some unset_best_header =>
    if notification.header.number < unset_best_header.number then
      ⟨some unset_best_header, announces, [], []⟩
    else if notification.header.number = unset_best_header.number ∧
        unset_best_header.hash ≠ notification.hash then
      ⟨some unset_best_header, announces, [], []⟩
    else
      let unset_hash := unset_best_header.hash
      match parachain.blockStatus unset_hash with
      | .ok .InChainWithState =>
        ⟨none, announces, [unset_hash], [import_block_as_new_best unset_best_header]⟩
      | _ => ⟨some unset_best_header, announces, [unset_hash], []⟩

/-! ## The pending-candidate handler (`handle_pending_candidate`) -/

/-- The commitments of a committed candidate receipt; only `head_data` is read
by the driver. -/
structure CandidateCommitments where
  head_data : List Nat
  deriving DecidableEq, Repr

/-- A `CommittedCandidateReceipt`: the commitments plus the rest of the receipt,
opaque to the driver. -/
structure CommittedCandidateReceipt where
  commitments : CandidateCommitments
  descriptor : Nat
  deriving DecidableEq, Repr

/-- Effects of `handle_pending_candidate`: the `block_status` queries made and
the `(hash, block_number, receipt, session_index)` hand-offs to
`CandidateRecovery::insert_pending_candidate`. -/
structure PendingOut where
  statusQueries : List Nat
  insertions : List (Nat × Nat × Nat × Nat)
  deriving DecidableEq, Repr

/-- `handle_pending_candidate`: decode the parachain header from the
candidate's committed head data (on failure log a warning; no header is
produced, so the item is skipped); compute its hash and query the local block
status. The source matches `Ok(BlockStatus::Unknown)` to the unit value and
every other arm returns — in all cases the function then ends without handing
anything to the candidate-recovery component (`insert_pending_candidate` has no
caller in the source). -/
def handle_pending_candidate (pending_candidate : CommittedCandidateReceipt)
    (session_index : Nat) (parachain : Parachain) : PendingOut :=
  match decodeHeader pending_candidate.commitments.head_data with
  | none => ⟨[], []⟩
  | some header =>
    match parachain.blockStatus header.hash, session_index with
    | .ok .Unknown, _ => ⟨[header.hash], []⟩
    | .ok _, _ => ⟨[header.hash], []⟩
    | .error _, _ => ⟨[header.hash], []⟩

/-! ## Event traces over the candidate-recovery component -/

/-- The events the `CandidateRecovery` component reacts to. -/
inductive RecoveryEvent where
  | insert (hash block_number receipt session_index : Nat)
  | imported (hash : Nat)
  | finalized (block_number : Nat)
  | timerFired (hash : Nat)
  deriving DecidableEq, Repr

/-- One event applied to the recovery state; only a timer expiry can emit
overseer messages. -/
def recoveryStep (self : CandidateRecovery) :
    RecoveryEvent → CandidateRecovery × List RecoverAvailableDataMsg
  | .insert h n r s => (insert_pending_candidate self h n r s, [])
  | .imported h => (block_imported self h, [])
  | .finalized n => (block_finalized self n, [])
  | .timerFired h => wait_for_recovery_step self h

/-- Run a trace of recovery events, logging for each event the overseer
messages it emitted. -/
def runRecovery (self : CandidateRecovery) :
    List RecoveryEvent →
      CandidateRecovery × List (RecoveryEvent × List RecoverAvailableDataMsg)
  | [] => (self, [])
  | e :: t =>
    let s := recoveryStep self e
    let r := runRecovery s.1 t
    (r.1, (e, s.2) :: r.2)

/-- Whether an event is an insertion keyed by the given hash. -/
def isInsertOf (hash : Nat) : RecoveryEvent → Bool
  | .insert h _ _ _ => h == hash
  | _ => false

/-- Whether a list of `finalize_block` call hashes has two consecutive equal
entries. -/
def noConsecDup : List Nat → Bool
  | [] => true
  | [_] => true
  | a :: b :: t => a != b && noConsecDup (b :: t)

/-! ## Helper lemmas about the pending map -/

lemma lookupPC_insertPC_self (m : List (Nat × PendingCandidate)) (h : Nat)
    (v : PendingCandidate) : lookupPC (insertPC m h v) h = some v := by
  induction m with
  | nil => simp [insertPC, lookupPC]
  | cons kv t ih =>
    obtain ⟨k, w⟩ := kv
    by_cases hk : k = h <;> simp [insertPC, lookupPC, hk, ih]

lemma lookupPC_insertPC_ne (m : List (Nat × PendingCandidate)) (h k : Nat)
    (v : PendingCandidate) (hk : k ≠ h) :
    lookupPC (insertPC m h v) k = lookupPC m k := by
  induction m with
  | nil => simp [insertPC, lookupPC, Ne.symm hk]
  | cons kv t ih =>
    obtain ⟨k', w⟩ := kv
    by_cases hk' : k' = h
    · subst hk'
      simp [insertPC, lookupPC, Ne.symm hk]
    · simp only [insertPC, if_neg hk']
      by_cases hkk : k' = k <;> simp [lookupPC, hkk, ih]

lemma lookupPC_filter_none (m : List (Nat × PendingCandidate)) (h : Nat)
    (p : Nat × PendingCandidate → Bool) (hm : lookupPC m h = none) :
    lookupPC (m.filter p) h = none := by
  induction m with
  | nil => rfl
  | cons kv t ih =>
    obtain ⟨k, w⟩ := kv
    by_cases hk : k = h
    · rw [lookupPC, if_pos hk] at hm
      exact absurd hm (by simp)
    · rw [lookupPC, if_neg hk] at hm
      rw [List.filter_cons]
      cases hp : p (k, w) <;> simp [lookupPC, hk, ih hm]

lemma lookupPC_removePC_self (m : List (Nat × PendingCandidate)) (h : Nat) :
    lookupPC (removePC m h) h = none := by
  induction m with
  | nil => rfl
  | cons kv t ih =>
    obtain ⟨k, w⟩ := kv
    by_cases hk : k = h
    · simpa [removePC, List.filter_cons, hk] using ih
    · simpa [removePC, List.filter_cons, hk, lookupPC] using ih

lemma lookupPC_removePC_ne (m : List (Nat × PendingCandidate)) (h k : Nat)
    (hk : k ≠ h) : lookupPC (removePC m h) k = lookupPC m k := by
  induction m with
  | nil => rfl
  | cons kv t ih =>
    obtain ⟨k', w⟩ := kv
    by_cases hk' : k' = h
    · subst hk'
      simpa [removePC, List.filter_cons, lookupPC, Ne.symm hk] using ih
    · by_cases hkk : k' = k
      · simp [removePC, List.filter_cons, lookupPC, hk', hkk, hk]
      · simpa [removePC, List.filter_cons, lookupPC, hk', hkk] using ih

lemma lookupPC_removePC_none (m : List (Nat × PendingCandidate)) (h h' : Nat)
    (hm : lookupPC m h = none) : lookupPC (removePC m h') h = none := by
  by_cases hh : h = h'
  · subst hh; exact lookupPC_removePC_self m h
  · rw [lookupPC_removePC_ne m h' h hh]; exact hm

lemma insert_pending_candidate_pending (self : CandidateRecovery)
    (h n r s : Nat) :
    (insert_pending_candidate self h n r s).pending_candidates
      = insertPC self.pending_candidates h ⟨r, s, n⟩ := by
  simp only [insert_pending_candidate]
  split <;> rfl

/-! ## Claim theorems -/

/-- C6: immediately after `CandidateRecovery::block_finalized(n)` the pending
map consists of exactly the previous entries whose block number exceeds `n`:
no entry with `block_number ≤ n` survives, and every entry with
`block_number > n` is kept unchanged. -/
theorem block_finalized_evicts (self : CandidateRecovery) (n : Nat)
    (kv : Nat × PendingCandidate) :
    kv ∈ (block_finalized self n).pending_candidates ↔
      kv ∈ self.pending_candidates ∧ n < kv.2.block_number := by
  simp [block_finalized, List.mem_filter]

/-- C10: `insert_pending_candidate` on a hash that is already a key of the
pending map replaces the stored entry with the new
`(block_number, receipt, session_index)` triple, leaves every other entry
alone, arms no new recovery timer, and leaves the in-flight set untouched. -/
theorem insert_pending_candidate_existing (self : CandidateRecovery)
    (hash block_number receipt session_index : Nat) (old : PendingCandidate)
    (hprev : lookupPC self.pending_candidates hash = some old) :
    lookupPC (insert_pending_candidate self hash block_number receipt
        session_index).pending_candidates hash
      = some ⟨receipt, session_index, block_number⟩ ∧
    (∀ k, k ≠ hash →
      lookupPC (insert_pending_candidate self hash block_number receipt
          session_index).pending_candidates k
        = lookupPC self.pending_candidates k) ∧
    (insert_pending_candidate self hash block_number receipt
        session_index).next_candidate_to_recover
      = self.next_candidate_to_recover ∧
    (insert_pending_candidate self hash block_number receipt
        session_index).recovering_candidates
      = self.recovering_candidates := by
  have hpend := insert_pending_candidate_pending self hash block_number
    receipt session_index
  refine ⟨?_, ?_, ?_, ?_⟩
  · rw [hpend]; exact lookupPC_insertPC_self _ _ _
  · intro k hk; rw [hpend]; exact lookupPC_insertPC_ne _ _ _ _ hk
  · simp [insert_pending_candidate, hprev]
  · simp [insert_pending_candidate, hprev]

/-- Witness for the C10 theorem at a concrete recovery state. -/
theorem insert_pending_candidate_existing_w :
    lookupPC (insert_pending_candidate ⟨[(5, ⟨1, 2, 3⟩)], [5], []⟩ 5 10 20
        30).pending_candidates 5 = some ⟨20, 30, 10⟩ ∧
    (insert_pending_candidate ⟨[(5, ⟨1, 2, 3⟩)], [5], []⟩ 5 10 20
        30).next_candidate_to_recover = [5] :=
  ⟨(insert_pending_candidate_existing ⟨[(5, ⟨1, 2, 3⟩)], [5], []⟩ 5 10 20 30
      ⟨1, 2, 3⟩ rfl).1,
   (insert_pending_candidate_existing ⟨[(5, ⟨1, 2, 3⟩)], [5], []⟩ 5 10 20 30
      ⟨1, 2, 3⟩ rfl).2.2.1⟩

/-- The announce invocations of `handle_new_block_imported` are determined by
the notification's origin alone, identically in every branch of the handler. -/
lemma handle_new_block_imported_announces (parachain : Parachain)
    (n : BlockImportNotification) (u : Option Header) :
    (handle_new_block_imported parachain n u).announces
      = if n.origin ≠ BlockOrigin.Own then [(n.hash, none)] else [] := by
  unfold handle_new_block_imported
  cases hb : n.is_new_best <;> cases u <;> (try dsimp only) <;>
    (repeat' split) <;> rfl

/-- C9: an import notification whose origin is not `Own` causes exactly one
`announce_block` invocation carrying the notification's hash and no associated
data; a notification with origin `Own` causes none. -/
theorem imported_announce_iff_not_own (parachain : Parachain)
    (n : BlockImportNotification) (u : Option Header) :
    (handle_new_block_imported parachain n u).announces
      = if n.origin = BlockOrigin.Own then [] else [(n.hash, none)] := by
  rw [handle_new_block_imported_announces]
  by_cases h : n.origin = BlockOrigin.Own <;> simp [h]

/-- C1 (code evidence): a pending candidate whose committed head data decodes
to a header with local block status `Unknown` is NOT handed to the candidate
recovery component — `handle_pending_candidate` queries the status and then
ends; `insert_pending_candidate` has no caller in the source. Evaluated at a
concrete candidate whose status is `Unknown`: the status query happens and the
list of recovery hand-offs is empty. -/
theorem pending_candidate_unknown_no_recovery_handoff :
    decodeHeader [4, 1] = some ⟨4, 1⟩ ∧
    (Parachain.mk 0 0 (fun _ => Except.ok BlockStatus.Unknown)
        (fun _ => true)).blockStatus (Header.hash ⟨4, 1⟩)
      = Except.ok BlockStatus.Unknown ∧
    handle_pending_candidate ⟨⟨[4, 1]⟩, 7⟩ 9
        (Parachain.mk 0 0 (fun _ => Except.ok BlockStatus.Unknown)
          (fun _ => true))
      = ⟨[Header.hash ⟨4, 1⟩], []⟩ :=
  ⟨rfl, rfl, rfl⟩

/-- C3: a stream item whose header bytes fail to decode is skipped entirely by
the best-head follower, the finalized-head follower and the pending-candidate
handler: no block-status query, no import, no finalize call; the deferred
header, the client state and the recovery hand-offs are all untouched. -/
theorem decode_failure_skips_item (parachain : Parachain) (bytes : List Nat)
    (unset_best_header : Option Header) (descriptor session_index : Nat)
    (rest : List (List Nat)) (hdec : decodeHeader bytes = none) :
    handle_new_best_parachain_head parachain bytes unset_best_header
        = ⟨unset_best_header, [], []⟩ ∧
    finalized_head_step parachain bytes = (parachain, []) ∧
    follow_finalized_head parachain (bytes :: rest)
        = follow_finalized_head parachain rest ∧
    handle_pending_candidate ⟨⟨bytes⟩, descriptor⟩ session_index parachain
        = ⟨[], []⟩ := by
  refine ⟨?_, ?_, ?_, ?_⟩ <;>
    simp [handle_new_best_parachain_head, finalized_head_step,
      follow_finalized_head, handle_pending_candidate, hdec]

/-- Witness for the C3 theorem: the empty byte string fails to decode and each
handler skips it. -/
theorem decode_failure_skips_item_w :
    handle_new_best_parachain_head
        (Parachain.mk 0 0 (fun _ => Except.ok BlockStatus.Unknown)
          (fun _ => true)) [] (some ⟨1, 1⟩)
      = ⟨some ⟨1, 1⟩, [], []⟩ :=
  (decode_failure_skips_item
    (Parachain.mk 0 0 (fun _ => Except.ok BlockStatus.Unknown) (fun _ => true))
    [] (some ⟨1, 1⟩) 0 0 [] rfl).1

/-- C4: a relay new-best head that decodes to a header whose hash differs from
the local best hash and whose local status is `InChainWithState` clears the
deferred best header and issues exactly one `import_block` call with origin
`ConsensusBroadcast`, fork choice `Custom(true)` and `import_existing = true`;
an error from that call is logged and swallowed, so the handler's outcome never
depends on it. -/
theorem new_best_in_chain_imports (parachain : Parachain) (head : List Nat)
    (unset_best_header : Option Header) (header : Header)
    (hdec : decodeHeader head = some header)
    (hne : parachain.bestHash ≠ header.hash)
    (hst : parachain.blockStatus header.hash
        = Except.ok BlockStatus.InChainWithState) :
    handle_new_best_parachain_head parachain head unset_best_header
      = ⟨none, [header.hash],
          [{ origin := BlockOrigin.ConsensusBroadcast
             fork_choice := some (ForkChoiceStrategy.Custom true)
             import_existing := true
             header := header }]⟩ := by
  simp [handle_new_best_parachain_head, import_block_as_new_best, hdec, hne, hst]

/-- Witness for the C4 theorem at a concrete client and head. -/
theorem new_best_in_chain_imports_w :
    handle_new_best_parachain_head
        (Parachain.mk 0 0 (fun _ => Except.ok BlockStatus.InChainWithState)
          (fun _ => true)) [5, 7] (some ⟨1, 1⟩)
      = ⟨none, [Header.hash ⟨5, 7⟩],
          [{ origin := BlockOrigin.ConsensusBroadcast
             fork_choice := some (ForkChoiceStrategy.Custom true)
             import_existing := true
             header := ⟨5, 7⟩ }]⟩ :=
  new_best_in_chain_imports
    (Parachain.mk 0 0 (fun _ => Except.ok BlockStatus.InChainWithState)
      (fun _ => true)) [5, 7] (some ⟨1, 1⟩) ⟨5, 7⟩ rfl (by decide) rfl

/-- C5: while a deferred best header `u` is set and a not-new-best import
notification arrives: an imported number below `u`'s, or equal to it with a
different hash, changes nothing (no status query, no import, slot kept); an
imported number equal to `u`'s with `u`'s hash, or above `u`'s, re-checks the
local status of `u`'s hash and promotes — clearing the slot and importing `u`
as new best — exactly when that status is `InChainWithState`, keeping the slot
set under any other status. -/
theorem imported_reconciles_deferred (parachain : Parachain)
    (n : BlockImportNotification) (u : Header) (hnb : n.is_new_best = false) :
    (n.header.number < u.number →
      (handle_new_block_imported parachain n (some u)).unset_best_header
          = some u ∧
      (handle_new_block_imported parachain n (some u)).statusQueries = [] ∧
      (handle_new_block_imported parachain n (some u)).imports = []) ∧
    (n.header.number = u.number → u.hash ≠ n.hash →
      (handle_new_block_imported parachain n (some u)).unset_best_header
          = some u ∧
      (handle_new_block_imported parachain n (some u)).statusQueries = [] ∧
      (handle_new_block_imported parachain n (some u)).imports = []) ∧
    ((n.header.number = u.number ∧ u.hash = n.hash) ∨
        u.number < n.header.number →
      (handle_new_block_imported parachain n (some u)).statusQueries
          = [u.hash] ∧
      (parachain.blockStatus u.hash = Except.ok BlockStatus.InChainWithState →
        (handle_new_block_imported parachain n (some u)).unset_best_header
            = none ∧
        (handle_new_block_imported parachain n (some u)).imports
            = [import_block_as_new_best u]) ∧
      (parachain.blockStatus u.hash ≠ Except.ok BlockStatus.InChainWithState →
        (handle_new_block_imported parachain n (some u)).unset_best_header
            = some u ∧
        (handle_new_block_imported parachain n (some u)).imports = [])) := by
  refine ⟨?_, ?_, ?_⟩
  · intro hlt
    refine ⟨?_, ?_, ?_⟩ <;> simp [handle_new_block_imported, hnb, hlt]
  · intro heq hne
    refine ⟨?_, ?_, ?_⟩ <;> simp [handle_new_block_imported, hnb, heq, hne]
  · intro hor
    have h1 : ¬ n.header.number < u.number := by
      rcases hor with ⟨heq, _⟩ | hgt
      · simp [heq]
      · omega
    have h2 : ¬(n.header.number = u.number ∧ u.hash ≠ n.hash) := by
      rcases hor with ⟨heq, hhash⟩ | hgt
      · simp [hhash]
      · exact fun hc => absurd hc.1 (by omega)
    refine ⟨?_, fun hst => ?_, fun hst => ?_⟩
    · simp only [handle_new_block_imported, hnb]
      simp [h1, h2]
      split <;> rfl
    · refine ⟨?_, ?_⟩ <;>
        simp [handle_new_block_imported, hnb, h1, h2, hst]
    · rcases hbs : parachain.blockStatus u.hash with e | s
      · refine ⟨?_, ?_⟩ <;>
          simp [handle_new_block_imported, hnb, h1, h2, hbs]
      · cases s <;>
          first
            | exact absurd hbs hst
            | refine ⟨?_, ?_⟩ <;>
                simp [handle_new_block_imported, hnb, h1, h2, hbs]

/-- Witness for the C5 theorem: a higher-numbered import notification promotes
the deferred header once its hash reaches `InChainWithState`. -/
theorem imported_reconciles_deferred_w :
    (handle_new_block_imported
        (Parachain.mk 0 0 (fun _ => Except.ok BlockStatus.InChainWithState)
          (fun _ => true))
        (BlockImportNotification.mk 100 BlockOrigin.NetworkBroadcast ⟨9, 9⟩
          false)
        (some ⟨5, 7⟩)).unset_best_header = none ∧
    (handle_new_block_imported
        (Parachain.mk 0 0 (fun _ => Except.ok BlockStatus.InChainWithState)
          (fun _ => true))
        (BlockImportNotification.mk 100 BlockOrigin.NetworkBroadcast ⟨9, 9⟩
          false)
        (some ⟨5, 7⟩)).imports = [import_block_as_new_best ⟨5, 7⟩] :=
  ((imported_reconciles_deferred
      (Parachain.mk 0 0 (fun _ => Except.ok BlockStatus.InChainWithState)
        (fun _ => true))
      (BlockImportNotification.mk 100 BlockOrigin.NetworkBroadcast ⟨9, 9⟩ false)
      ⟨5, 7⟩ rfl).2.2 (Or.inr (by decide))).2.1 rfl

/-- C2 counterexample: at a concrete state whose pending map holds hash 5, the
timer expiry for 5 does NOT insert 5 into the in-flight set
`recovering_candidates` — the loop body never touches that field — refuting
the claim as stated. -/
theorem timer_expiry_no_inflight_insertion :
    lookupPC (CandidateRecovery.mk [(5, ⟨3, 2, 9⟩)] [5] []).pending_candidates 5
        = some ⟨3, 2, 9⟩ ∧
    ¬ 5 ∈ (wait_for_recovery_step (CandidateRecovery.mk [(5, ⟨3, 2, 9⟩)] [5] [])
        5).1.recovering_candidates := by
  decide

/-- C2 (amended): on a recovery-timer expiry carrying hash `h`: if `h` is
absent from the pending map nothing happens; otherwise `h`'s entry is removed
from the pending map (other entries untouched) and exactly one
`RecoverAvailableData` message carrying the entry's receipt, its session index
and backing-group hint `None` is sent to the overseer, while the in-flight set
`recovering_candidates` and the armed-timer queue are left unchanged. -/
theorem wait_for_recovery_step_spec (self : CandidateRecovery) (h : Nat) :
    (lookupPC self.pending_candidates h = none →
      wait_for_recovery_step self h = (self, [])) ∧
    ∀ pc, lookupPC self.pending_candidates h = some pc →
      lookupPC (wait_for_recovery_step self h).1.pending_candidates h = none ∧
      (∀ k, k ≠ h →
        lookupPC (wait_for_recovery_step self h).1.pending_candidates k
          = lookupPC self.pending_candidates k) ∧
      (wait_for_recovery_step self h).1.next_candidate_to_recover
        = self.next_candidate_to_recover ∧
      (wait_for_recovery_step self h).1.recovering_candidates
        = self.recovering_candidates ∧
      (wait_for_recovery_step self h).2
        = [⟨pc.receipt, pc.session_index, none⟩] := by
  constructor
  · intro hnone
    simp [wait_for_recovery_step, hnone]
  · intro pc hsome
    refine ⟨?_, ?_, ?_, ?_, ?_⟩
    · simp [wait_for_recovery_step, hsome, lookupPC_removePC_self]
    · intro k hk
      simp only [wait_for_recovery_step, hsome]
      exact lookupPC_removePC_ne _ _ _ hk
    · simp [wait_for_recovery_step, hsome]
    · simp [wait_for_recovery_step, hsome]
    · simp [wait_for_recovery_step, hsome]

/-- Witness for the C2 amended theorem at a concrete recovery state. -/
theorem wait_for_recovery_step_spec_w :
    (wait_for_recovery_step (CandidateRecovery.mk [(6, ⟨3, 2, 9⟩)] [6] []) 6).2
      = [⟨3, 2, none⟩] :=
  ((wait_for_recovery_step_spec (CandidateRecovery.mk [(6, ⟨3, 2, 9⟩)] [6] [])
      6).2 ⟨3, 2, 9⟩ rfl).2.2.2.2

/-- Applying any recovery event that is not an insertion keyed by `h` preserves
the absence of `h` from the pending map. -/
lemma recoveryStep_preserves_absent (self : CandidateRecovery) (h : Nat)
    (e : RecoveryEvent) (hne : isInsertOf h e = false)
    (habs : lookupPC self.pending_candidates h = none) :
    lookupPC (recoveryStep self e).1.pending_candidates h = none := by
  cases e with
  | insert h' n r s =>
    have hh : h' ≠ h := by simpa [isInsertOf] using hne
    simp only [recoveryStep, insert_pending_candidate_pending]
    rw [lookupPC_insertPC_ne _ _ _ _ (Ne.symm hh)]
    exact habs
  | imported h' =>
    simp only [recoveryStep, block_imported]
    exact lookupPC_removePC_none _ _ _ habs
  | finalized n =>
    simp only [recoveryStep, block_finalized]
    exact lookupPC_filter_none _ _ _ habs
  | timerFired h' =>
    simp only [recoveryStep, wait_for_recovery_step]
    rcases hl : lookupPC self.pending_candidates h' with _ | pc
    · simp only [hl]
      exact habs
    · simp only [hl]
      exact lookupPC_removePC_none _ _ _ habs

/-- A timer expiry whose hash is absent from the pending map emits nothing. -/
lemma recoveryStep_timer_absent_silent (self : CandidateRecovery) (h : Nat)
    (habs : lookupPC self.pending_candidates h = none) :
    (recoveryStep self (RecoveryEvent.timerFired h)).2 = [] := by
  simp [recoveryStep, wait_for_recovery_step, habs]

/-- C7: once `block_imported(h)` has been applied, along any later run of
recovery events that never re-inserts `h`, every timer expiry for `h` is
dropped silently: the run's log shows no `RecoverAvailableData` message emitted
by any timer-expiry event for `h`. -/
theorem no_recovery_request_after_import (self : CandidateRecovery) (h : Nat)
    (events : List RecoveryEvent)
    (hno : ∀ e ∈ events, isInsertOf h e = false) :
    ∀ p ∈ (runRecovery (block_imported self h) events).2,
      p.1 = RecoveryEvent.timerFired h → p.2 = [] := by
  have key : ∀ (evs : List RecoveryEvent) (s : CandidateRecovery),
      lookupPC s.pending_candidates h = none →
      (∀ e ∈ evs, isInsertOf h e = false) →
      ∀ p ∈ (runRecovery s evs).2,
        p.1 = RecoveryEvent.timerFired h → p.2 = [] := by
    intro evs
    induction evs with
    | nil =>
      intro s _ _ p hp
      simp [runRecovery] at hp
    | cons e t ih =>
      intro s hs hno' p hp hev
      simp only [runRecovery, List.mem_cons] at hp
      rcases hp with hp | hp
      · subst hp
        simp only at hev
        subst hev
        exact recoveryStep_timer_absent_silent s h hs
      · exact ih (recoveryStep s e).1
          (recoveryStep_preserves_absent s h e
            (hno' e (List.mem_cons_self e t)) hs)
          (fun e' he' => hno' e' (List.mem_cons_of_mem e he')) p hp hev
  exact key events (block_imported self h)
    (by simpa [block_imported] using
      lookupPC_removePC_self self.pending_candidates h)
    hno

/-- Witness for the C7 theorem: after importing hash 5, a later timer expiry
for 5 emits no overseer message. -/
theorem no_recovery_request_after_import_w :
    (recoveryStep
        (block_imported (CandidateRecovery.mk [(5, ⟨3, 2, 9⟩)] [5] []) 5)
        (RecoveryEvent.timerFired 5)).2 = [] :=
  no_recovery_request_after_import
    (CandidateRecovery.mk [(5, ⟨3, 2, 9⟩)] [5] []) 5
    [RecoveryEvent.timerFired 5, RecoveryEvent.finalized 0,
      RecoveryEvent.timerFired 5]
    (by decide)
    (RecoveryEvent.timerFired 5,
      (recoveryStep
        (block_imported (CandidateRecovery.mk [(5, ⟨3, 2, 9⟩)] [5] []) 5)
        (RecoveryEvent.timerFired 5)).2)
    (by decide) rfl

/-- C8 counterexample: with a client on which the finalize attempt fails (the
block is unknown), the skip-guard keeps comparing against an unchanged
finalized hash, so two identical stream items cause two consecutive
`finalize_block` calls with the same hash — refuting the claim as stated. -/
theorem finalize_same_hash_twice :
    (follow_finalized_head
        (Parachain.mk 0 0 (fun _ => Except.ok BlockStatus.Unknown)
          (fun _ => false)) [[5, 7], [5, 7]]).2
      = [Header.hash ⟨5, 7⟩, Header.hash ⟨5, 7⟩] ∧
    noConsecDup (follow_finalized_head
        (Parachain.mk 0 0 (fun _ => Except.ok BlockStatus.Unknown)
          (fun _ => false)) [[5, 7], [5, 7]]).2 = false := by
  constructor <;> rfl

/-- The first `finalize_block` call a run issues carries a hash different from
the client's finalized hash at entry (the skip-guard). -/
lemma follow_finalized_head_head_ne :
    ∀ (heads : List (List Nat)) (parachain : Parachain) (c : Nat),
      (follow_finalized_head parachain heads).2.head? = some c →
      c ≠ parachain.finalizedHash := by
  intro heads
  induction heads with
  | nil =>
    intro p c hc
    simp [follow_finalized_head] at hc
  | cons a rest ih =>
    intro p c hc
    simp only [follow_finalized_head] at hc
    rcases hdec : decodeHeader a with _ | header
    · simp only [hdec] at hc
      exact ih p c hc
    · simp only [hdec] at hc
      by_cases hne : p.finalizedHash ≠ header.hash
      · rw [if_pos hne] at hc
        simp only [List.head?_cons, Option.some.injEq] at hc
        subst hc
        exact fun hcc => hne hcc.symm
      · rw [if_neg hne] at hc
        exact ih p c hc

/-- C8 (amended): the loop never calls `finalize_block` with a hash equal to
the client's finalized hash at the time of the call — the loop body
(`finalized_head_step`) issues, from an arbitrary client state, only calls
whose hash differs from that state's finalized hash, and the loop is exactly
this step iterated. Consequently, in an arbitrary run (finalize successes and
failures mixed) any two consecutive `finalize_block` calls carry different
hashes provided the earlier of the two succeeded (updating the finalized
hash); a failed call leaves the finalized hash unchanged, and only then may
the same hash be retried on the next item. -/
theorem finalize_skip_guard_and_consec_distinct (parachain : Parachain)
    (heads : List (List Nat)) :
    (∀ item, ∀ c ∈ (finalized_head_step parachain item).2,
        c ≠ parachain.finalizedHash) ∧
    (∀ item rest,
      follow_finalized_head parachain (item :: rest)
        = ((follow_finalized_head (finalized_head_step parachain item).1
              rest).1,
            (finalized_head_step parachain item).2
              ++ (follow_finalized_head (finalized_head_step parachain item).1
                    rest).2)) ∧
    (∀ (l r : List Nat) (c1 c2 : Nat),
      (follow_finalized_head parachain heads).2 = l ++ c1 :: c2 :: r →
      parachain.finalizeOk c1 = true → c1 ≠ c2) := by
  refine ⟨?_, ?_, ?_⟩
  · intro item c hc
    simp only [finalized_head_step] at hc
    rcases hdec : decodeHeader item with _ | header
    · simp [hdec] at hc
    · simp only [hdec] at hc
      by_cases hne : parachain.finalizedHash ≠ header.hash
      · rw [if_pos hne] at hc
        cases hok : parachain.finalizeOk header.hash <;>
          simp [hok] at hc <;> subst hc <;> exact fun hcc => hne hcc.symm
      · rw [if_neg hne] at hc
        simp at hc
  · intro item rest
    simp only [follow_finalized_head, finalized_head_step]
    rcases hdec : decodeHeader item with _ | header
    · simp [hdec]
    · simp only [hdec]
      by_cases hne : parachain.finalizedHash ≠ header.hash
      · rw [if_pos hne, if_pos hne]
        cases hok : parachain.finalizeOk header.hash <;> simp [hok]
      · rw [if_neg hne, if_neg hne]
        simp
  · have key : ∀ (hs : List (List Nat)) (p : Parachain) (l r : List Nat)
        (c1 c2 : Nat),
        (follow_finalized_head p hs).2 = l ++ c1 :: c2 :: r →
        p.finalizeOk c1 = true → c1 ≠ c2 := by
      intro hs
      induction hs with
      | nil =>
        intro p l r c1 c2 hcalls _
        simp [follow_finalized_head] at hcalls
      | cons a rest ih =>
        intro p l r c1 c2 hcalls hok1
        simp only [follow_finalized_head] at hcalls
        rcases hdec : decodeHeader a with _ | header
        · simp only [hdec] at hcalls
          exact ih p l r c1 c2 hcalls hok1
        · simp only [hdec] at hcalls
          by_cases hne : p.finalizedHash ≠ header.hash
          · rw [if_pos hne] at hcalls
            cases l with
            | nil =>
              simp only [List.nil_append, List.cons.injEq] at hcalls
              obtain ⟨hc1, hrest⟩ := hcalls
              subst hc1
              rw [if_pos hok1] at hrest
              have hne2 := follow_finalized_head_head_ne rest
                { p with finalizedHash := header.hash } c2 (by rw [hrest]; rfl)
              exact fun hcc => hne2 hcc.symm
            | cons x l' =>
              simp only [List.cons_append, List.cons.injEq] at hcalls
              obtain ⟨hx, hrest⟩ := hcalls
              by_cases hokh : p.finalizeOk header.hash = true
              · rw [if_pos hokh] at hrest
                exact ih { p with finalizedHash := header.hash } l' r c1 c2
                  hrest hok1
              · rw [if_neg hokh] at hrest
                exact ih p l' r c1 c2 hrest hok1
          · rw [if_neg hne] at hcalls
            exact ih p l r c1 c2 hcalls hok1
    exact fun l r c1 c2 => key heads parachain l r c1 c2

/-- Witness for the C8 amended theorem on a mixed run: the first finalize call
succeeds and the next two fail, so the run's calls are `[h57, h68, h68]` (the
failed call is retried with the same hash), and the consecutive pair whose
earlier call succeeded has distinct hashes — by the theorem. -/
theorem finalize_skip_guard_and_consec_distinct_w :
    (follow_finalized_head
        (Parachain.mk 0 0 (fun _ => Except.ok BlockStatus.Unknown)
          (fun h => h == Nat.pair 5 7)) [[5, 7], [6, 8], [6, 8]]).2
      = [Nat.pair 5 7, Nat.pair 6 8, Nat.pair 6 8] ∧
    Nat.pair 5 7 ≠ Nat.pair 6 8 :=
  ⟨by decide,
   (finalize_skip_guard_and_consec_distinct
      (Parachain.mk 0 0 (fun _ => Except.ok BlockStatus.Unknown)
        (fun h => h == Nat.pair 5 7)) [[5, 7], [6, 8], [6, 8]]).2.2
      [] [Nat.pair 6 8] (Nat.pair 5 7) (Nat.pair 6 8) (by decide) (by decide)⟩
